import Mathlib

/-!
Shallow embedding of the rs1090 Python binding layer (`src/python/src/lib.rs`)
and the parts of its behaviour that the specification describes.

Bytes are modelled as `Nat` values below 256, byte buffers as `List Nat`.
The external rs1090 decoding library (e.g. `Message::from_bytes`,
`AirbornePosition::from_bytes`) is not part of the sources; the entry points
that call into it are therefore parameterised over an abstract decoder
`List Nat → Option α`, so every theorem below holds for any such decoder and
is decided purely by the binding code that is in the sources.
-/

namespace RS1090

/-- Value of a single hexadecimal digit, case-insensitive (`0-9`, `a-f`, `A-F`),
as used by the `hex` crate and by `u32::from_str_radix(_, 16)`. The ranges are
the ASCII codes 48–57 (`0`–`9`), 97–102 (`a`–`f`) and 65–70 (`A`–`F`). -/
def hexDigitVal (c : Char) : Option Nat :=
  if 48 ≤ c.toNat ∧ c.toNat ≤ 57 then some (c.toNat - 48)
  else if 97 ≤ c.toNat ∧ c.toNat ≤ 102 then some (c.toNat - 97 + 10)
  else if 65 ≤ c.toNat ∧ c.toNat ≤ 70 then some (c.toNat - 65 + 10)
  else none

/-- The two failure cases of `hex::decode`: an odd number of digits, or a
character that is not a hexadecimal digit (reported with its index). -/
inductive HexError where
  | oddLength : HexError
  | invalidHexCharacter (c : Char) (index : Nat) : HexError
deriving DecidableEq, Repr

/-- Recursive worker for `hexDecode`: consumes digits two at a time,
producing one byte per pair. -/
def hexDecodeGo : List Char → Nat → Except HexError (List Nat)
  | [], _ => .ok []
  | [_], _ => .error .oddLength
  | c1 :: c2 :: rest, i =>
    match hexDigitVal c1 with
    | none => .error (.invalidHexCharacter c1 i)
    | some h =>
      match hexDigitVal c2 with
      | none => .error (.invalidHexCharacter c2 (i + 1))
      | some l =>
        match hexDecodeGo rest (i + 2) with
        | .error e => .error e
        | .ok bs => .ok ((16 * h + l) :: bs)

/-- Model of `hex::decode`: fails on odd length or on a non-hex character,
otherwise yields the byte buffer. -/
def hexDecode (s : String) : Except HexError (List Nat) :=
  if s.data.length % 2 ≠ 0 then .error .oddLength
  else hexDecodeGo s.data 0

/-- Model of the lenient single-frame entry point `decode_1090`:
a hex failure is surfaced as an error to the caller; a frame that the
abstract classifier cannot classify yields the explicit `none` result
(the pickled Python `None` in the binding). -/
def decode_1090 {α : Type} (classify : List Nat → Option α) (msg : String) :
    Except HexError (Option α) :=
  match hexDecode msg with
  | .error e => .error e
  | .ok bytes => .ok (classify bytes)

/-- One inner step of `decode_1090_vec`: hex failure or classification
failure both give `none`, success gives `some`. -/
def decodeFrameLenient {α : Type} (classify : List Nat → Option α)
    (msg : String) : Option α :=
  match hexDecode msg with
  | .error _ => none
  | .ok bytes => classify bytes

/-- Model of the batch entry point `decode_1090_vec`: each sequence is mapped
frame by frame to an `Option` result and the per-sequence lists are
concatenated (rayon's `collect` preserves the sequential order). -/
def decode_1090_vec {α : Type} (classify : List Nat → Option α)
    (msgs_set : List (List String)) : List (Option α) :=
  (msgs_set.map (fun msgs => msgs.map (decodeFrameLenient classify))).flatten

/-- Outcome of a strict per-register decoder (`decode_bds05`, `decode_bds65`):
a hex format error, an out-of-bounds index on the byte buffer (a Rust panic in
the source, since `bytes[4]` is unguarded), a range error carrying the
formatted message, a structural error from the inner register decoder, or a
decoded value. -/
inductive StrictResult (α : Type) where
  | formatErr (e : HexError) : StrictResult α
  | panicIndexOutOfBounds : StrictResult α
  | rangeErr (msg : String) : StrictResult α
  | structuralErr : StrictResult α
  | ok (a : α) : StrictResult α
deriving DecidableEq, Repr

/-- Model of `decode_bds05`: decode the hex, read byte 4 (panicking when the
buffer is shorter), take its high five bits as the typecode, accept exactly
`9 ≤ tc < 22 ∧ tc ≠ 19` (the Rust source's `(9..22).contains(&tc) && tc != 19`)
and otherwise fail with the range error message of the source. -/
def decode_bds05 {α : Type} (inner : List Nat → Option α) (msg : String) :
    StrictResult α :=
  match hexDecode msg with
  | .error e => .formatErr e
  | .ok bytes =>
    match bytes.get? 4 with
    | none => .panicIndexOutOfBounds
    | some b4 =>
      let tc := b4 / 8
      if 9 ≤ tc ∧ tc < 22 ∧ tc ≠ 19 then
        match inner (bytes.drop 4) with
        | some a => .ok a
        | none => .structuralErr
      else
        .rangeErr ("Invalid typecode " ++ toString tc ++
          " for BDS 0,5 (9 to 18 or 20 to 22)")

/-- Model of `decode_bds65`: decode the hex, read byte 4 (panicking when the
buffer is shorter), split it into the typecode (high five bits) and the
sub-identifier (low three bits), accept exactly typecode 31 with
sub-identifier 0 or 1, and otherwise fail with the range error message of the
source. -/
def decode_bds65 {α : Type} (inner : List Nat → Option α) (msg : String) :
    StrictResult α :=
  match hexDecode msg with
  | .error e => .formatErr e
  | .ok bytes =>
    match bytes.get? 4 with
    | none => .panicIndexOutOfBounds
    | some b4 =>
      let tc := b4 / 8
      let enum_id := b4 % 8
      if tc = 31 ∧ enum_id < 2 then
        match inner (bytes.drop 4) with
        | some a => .ok a
        | none => .structuralErr
      else
        .rangeErr ("Invalid typecode " ++ toString tc ++
          " (31) or category " ++ toString enum_id ++
          " (0 or 1) for BDS 6,5")

/-- A classifier for tests that accepts every byte buffer, returning it. -/
def classifyAll : List Nat → Option (List Nat) := fun b => some b

/-- A classifier for tests that rejects every byte buffer. -/
def classifyNone : List Nat → Option (List Nat) := fun _ => none

/-- ASCII lowercasing of one character (ASCII 65–90 are `A`–`Z`), as
`str::to_lowercase` acts on the ASCII range (hex address strings are ASCII). -/
def lowerChar (c : Char) : Char :=
  if 65 ≤ c.toNat ∧ c.toNat ≤ 90 then Char.ofNat (c.toNat + 32) else c

/-- ASCII lowercasing of a string (model of `icao24.to_lowercase()`). -/
def lowerStr (s : String) : String := ⟨s.data.map lowerChar⟩

/-- The optional leading `+` sign accepted by `u32::from_str_radix`. -/
def stripPlus (cs : List Char) : List Char :=
  match cs with
  | [] => []
  | c :: rest => if c = '+' then rest else c :: rest

/-- Model of `u32::from_str_radix(s, 16)`: an optional leading `+`, then a
non-empty run of case-insensitive hex digits, rejected on any other
character or on overflow past `2^32`. -/
def from_str_radix16 (s : String) : Option Nat :=
  if (stripPlus s.data).isEmpty then none
  else
    match (stripPlus s.data).foldl
        (fun acc c => acc.bind fun a => (hexDigitVal c).map fun d => 16 * a + d)
        (some 0) with
    | none => none
    | some v => if v < 2 ^ 32 then some v else none

/-- The result mapping of `aircraft_information`, modelling the Rust
`HashMap<String, String>` as an association list where `insertKV` replaces
any previous binding of the key. -/
abbrev Reg := List (String × String)

/-- Model of `HashMap::insert`: drop any previous binding of `k`, add
`(k, v)`. -/
def insertKV (m : Reg) (k v : String) : Reg :=
  m.filter (fun kv => kv.1 != k) ++ [(k, v)]

/-- Model of `HashMap::get`. -/
def getKV (m : Reg) (k : String) : Option String :=
  (m.find? (fun kv => kv.1 == k)).map Prod.snd

/-- One rule of a range entry's `categories` list: a text pattern plus
optional category / country / flag overrides (the `Category` records of the
static pattern table of `rs1090::data::patterns`). -/
structure CategoryRule where
  pattern : String
  category : Option String
  country : Option String
  flag : Option String
deriving DecidableEq, Repr

/-- One entry of the static pattern table (`PATTERNS.registers`): an optional
inclusive 24-bit address interval (the source stores the bounds as `0x`-
prefixed strings and parses them with `from_str_radix(..).unwrap()`; the
model holds the parsed numeric bounds, `stop` standing for the Rust field
`end`, a Lean keyword), a country and flag, and optional pattern, comment
and category-rule list. -/
structure AddressRangeEntry where
  start : Option Nat
  stop : Option Nat
  country : String
  flag : String
  pattern : Option String
  comment : Option String
  categories : Option (List CategoryRule)
deriving DecidableEq, Repr

/-- The containment test of the `find` in `aircraft_information`: both bounds
present and `start ≤ hexid ≤ end`. -/
def inInterval (elt : AddressRangeEntry) (hexid : Nat) : Bool :=
  match elt.start, elt.stop with
  | some s, some e => decide (s ≤ hexid) && decide (hexid ≤ e)
  | _, _ => false

/-- The first block of `aircraft_information`: insert the lowercased
`icao24`, then the registration derived from the tail-number table
(`tail(hexid)`) when it exists, then overwrite it with the caller-supplied
registration when present. -/
def baseReg (tailFn : Nat → Option String) (hexid : Nat) (icao24 : String)
    (registration : Option String) : Reg :=
  let reg : Reg := []
  let reg := insertKV reg "icao24" (lowerStr icao24)
  let reg := match tailFn hexid with
    | some t => insertKV reg "registration" t
    | none => reg
  match registration with
  | some t => insertKV reg "registration" t
  | none => reg

/-- The category-rule block of `aircraft_information`: always overwrite
`pattern` with the rule's pattern, then overwrite `category`, `country` and
`flag` exactly where the rule carries a value. -/
def applyCategoryRule (cat : CategoryRule) (reg : Reg) : Reg :=
  let reg := insertKV reg "pattern" cat.pattern
  let reg := match cat.category with
    | some c => insertKV reg "category" c
    | none => reg
  let reg := match cat.country with
    | some c => insertKV reg "country" c
    | none => reg
  match cat.flag with
  | some f => insertKV reg "flag" f
  | none => reg

/-- The seeding inserts of the matched-entry block of
`aircraft_information`: `country` and `flag` from the entry, and `pattern`
and `comment` exactly when the entry carries them. -/
def seedEntry (pat : AddressRangeEntry) (reg : Reg) : Reg :=
  let reg := insertKV reg "country" pat.country
  let reg := insertKV reg "flag" pat.flag
  let reg := match pat.pattern with
    | some p => insertKV reg "pattern" p
    | none => reg
  match pat.comment with
  | some c => insertKV reg "comment" c
  | none => reg

/-- The matched-entry block of `aircraft_information`: seed the mapping from
the entry; then, when a registration is in the mapping and the entry has
category rules, apply the first rule whose pattern matches the registration
(`regexMatch` abstracts `Regex::new(..).is_match`). -/
def applyRangeEntry (regexMatch : String → String → Bool)
    (pat : AddressRangeEntry) (reg : Reg) : Reg :=
  let reg := seedEntry pat reg
  match getKV reg "registration" with
  | some t =>
    match pat.categories with
    | some cats =>
      match cats.find? (fun r => regexMatch r.pattern t) with
      | some cat => applyCategoryRule cat reg
      | none => reg
    | none => reg
  | none => reg

/-- Model of `aircraft_information`: parse the address (a parse failure is
the `ValueError` raised at the boundary, modelled as `none`), build the base
mapping, and either refine it by the first containing range entry or fall
back to the sentinel "Unknown" country with the neutral flag glyph. -/
def aircraft_information (tailFn : Nat → Option String)
    (regexMatch : String → String → Bool)
    (registers : List AddressRangeEntry)
    (icao24 : String) (registration : Option String) : Option Reg :=
  match from_str_radix16 icao24 with
  | none => none
  | some hexid =>
    let reg := baseReg tailFn hexid icao24 registration
    match registers.find? (fun elt => inInterval elt hexid) with
    | some pat => some (applyRangeEntry regexMatch pat reg)
    | none => some (insertKV (insertKV reg "country" "Unknown") "flag" "🏳")

/-- Concrete tail-number table for witnesses: every address maps to the
registration `PH-OBS`. -/
def tailW : Nat → Option String := fun _ => some "PH-OBS"

/-- Concrete pattern matcher for witnesses: a pattern matches exactly when
it is the string `PH`. -/
def rmW : String → String → Bool := fun p _ => p == "PH"

/-- Witness category rule that never matches under `rmW`. -/
def catGlider : CategoryRule := ⟨"GLIDER", some "glider", none, none⟩

/-- Witness category rule that matches under `rmW` and carries no
overrides besides its pattern. -/
def catPH : CategoryRule := ⟨"PH", none, none, none⟩

/-- Witness range entry: the interval `0x480000`–`0x48ffff` with two
category rules. -/
def entryW : AddressRangeEntry :=
  ⟨some 4718592, some 4784127, "Netherlands", "NL", some "PH-", none,
    some [catGlider, catPH]⟩

end RS1090

namespace RS1090

/-- C10: `decode_1090_vec` returns one entry per input message: the flat
result is the frame-by-frame map over the concatenated input sequences, its
length is the total number of input hex strings, and a frame whose hex
decoding or classification fails is represented by an explicit `none` entry
in its original position rather than being removed. -/
theorem decode_1090_vec_one_entry_per_input {α : Type}
    (classify : List Nat → Option α) (msgs_set : List (List String)) :
    decode_1090_vec classify msgs_set
        = msgs_set.flatten.map (decodeFrameLenient classify)
    ∧ (decode_1090_vec classify msgs_set).length
        = (msgs_set.map List.length).sum
    ∧ ∀ msg, decodeFrameLenient classify msg
        = (hexDecode msg).toOption.bind classify := by
  refine ⟨(List.map_flatten ..).symm, ?_, ?_⟩
  · rw [decode_1090_vec, List.length_flatten, List.map_map]
    exact congrArg List.sum (List.map_congr_left (fun xs _ => by simp))
  · intro msg
    rw [decodeFrameLenient]
    cases hexDecode msg <;> rfl

/-- C1 counterexample: in a sequence with one malformed frame (`"zz"`)
between two frames that decode successfully, the flat result of
`decode_1090_vec` does not contain exactly the two successful results: the
failure is kept as a `none` entry, so the result has three entries. -/
theorem decode_1090_vec_keeps_failed_entry :
    decode_1090_vec classifyAll [["aa", "zz", "bb"]]
        = [some [170], none, some [187]]
    ∧ (decode_1090_vec classifyAll [["aa", "zz", "bb"]]).length ≠ 2 := by
  exact ⟨rfl, by decide⟩

/-- C1 (amended): for a sequence with one malformed hex frame interleaved
among N frames that decode successfully, `decode_1090_vec` returns, with no
error for the whole call, N + 1 entries: each successful frame as `some` in
its original relative order and the malformed frame as an explicit `none` in
its original position; dropping the `none` entries leaves exactly the N
successfully-decoded results in order. -/
theorem decode_1090_vec_malformed_among_valid {α : Type}
    (classify : List Nat → Option α) (pre post : List String) (bad : String)
    (g : String → α)
    (hbad : decodeFrameLenient classify bad = none)
    (hok : ∀ m ∈ pre ++ post, decodeFrameLenient classify m = some (g m)) :
    decode_1090_vec classify [pre ++ bad :: post]
        = pre.map (fun m => some (g m)) ++ none :: post.map (fun m => some (g m))
    ∧ (decode_1090_vec classify [pre ++ bad :: post]).length
        = (pre ++ post).length + 1
    ∧ (decode_1090_vec classify [pre ++ bad :: post]).reduceOption
        = (pre ++ post).map g := by
  have hpre : ∀ m ∈ pre, decodeFrameLenient classify m = some (g m) :=
    fun m hm => hok m (List.mem_append_left _ hm)
  have hpost : ∀ m ∈ post, decodeFrameLenient classify m = some (g m) :=
    fun m hm => hok m (List.mem_append_right _ hm)
  have hmain : decode_1090_vec classify [pre ++ bad :: post]
      = pre.map (fun m => some (g m))
        ++ none :: post.map (fun m => some (g m)) := by
    rw [decode_1090_vec]
    simp only [List.map_cons, List.map_nil, List.flatten_cons, List.flatten_nil,
      List.append_nil, List.map_append]
    rw [List.map_congr_left hpre]
    congr 1
    simp only [List.map_cons, hbad]
    rw [List.map_congr_left hpost]
  refine ⟨hmain, ?_, ?_⟩
  · rw [hmain]
    simp
    omega
  · rw [hmain, List.reduceOption_append, List.reduceOption_cons_of_none,
      List.map_append]
    simp only [List.reduceOption, List.filterMap_map]
    exact congrArg₂ (· ++ ·) (congrFun (List.filterMap_eq_map g) pre)
      (congrFun (List.filterMap_eq_map g) post)

/-- C1 witness: the amended statement applied with two valid frames around
the malformed `"zz"`: three entries, whose non-`none` part is the two
successes in order. -/
theorem decode_1090_vec_malformed_among_valid_witness :
    (decode_1090_vec classifyAll [["aa", "zz", "bb"]]).length = 3
    ∧ (decode_1090_vec classifyAll [["aa", "zz", "bb"]]).reduceOption
        = [[170], [187]] := by
  have h := decode_1090_vec_malformed_among_valid classifyAll ["aa"] ["bb"]
    "zz" (fun m => if m = "aa" then [170] else [187]) (by decide) (by decide)
  exact ⟨h.2.1, h.2.2⟩

/-- C2: the code rejects typecode 22, although the allowed band stated by
the specification — and by the error message of the code itself — is 9–18 or
20–22: at a frame whose byte 4 is `0xb0` (typecode `176 >> 3 = 22`),
`decode_bds05` fails with the range error instead of proceeding to decode,
for every inner register decoder. -/
theorem decode_bds05_rejects_typecode_22 :
    decode_bds05 classifyAll "00000000b0"
        = .rangeErr "Invalid typecode 22 for BDS 0,5 (9 to 18 or 20 to 22)"
    ∧ hexDecode "00000000b0" = .ok [0, 0, 0, 0, 176]
    ∧ 176 / 8 = 22 := by
  exact ⟨rfl, rfl, rfl⟩

/-- C3: a valid even-length hex string that is shorter than five bytes
(`"ab"`, one byte) reaches the unguarded `bytes[4]` access in both strict
decoders — a Rust index-out-of-bounds panic, not a FormatError — so the
frame-internal byte accesses are reachable for an input of incorrect
length; only non-hex characters and odd length yield the format error. -/
theorem decode_bds05_short_hex_panics :
    decode_bds05 classifyAll "ab" = .panicIndexOutOfBounds
    ∧ decode_bds65 classifyAll "ab" = .panicIndexOutOfBounds
    ∧ hexDecode "ab" = .ok [171]
    ∧ decode_bds05 classifyAll "0g" = .formatErr (.invalidHexCharacter 'g' 1)
    ∧ decode_bds05 classifyAll "abc" = .formatErr .oddLength := by
  exact ⟨rfl, rfl, rfl, rfl, rfl⟩

/-- C4: for every frame whose hex decodes with at least five bytes,
`decode_bds65` proceeds to the inner register decode exactly when the
typecode (high five bits of byte 4) is 31 and the sub-identifier (low three
bits) is 0 or 1; for every other combination it fails with the range error
naming the observed typecode and sub-identifier together with the allowed
band "31" and "0 or 1". -/
theorem decode_bds65_gate {α : Type} (inner : List Nat → Option α)
    (s : String) (bytes : List Nat) (b4 : Nat)
    (hdec : hexDecode s = .ok bytes) (hb4 : bytes.get? 4 = some b4) :
    (¬(b4 / 8 = 31 ∧ b4 % 8 < 2) →
      decode_bds65 inner s
        = .rangeErr ("Invalid typecode " ++ toString (b4 / 8)
            ++ " (31) or category " ++ toString (b4 % 8)
            ++ " (0 or 1) for BDS 6,5"))
    ∧ ((b4 / 8 = 31 ∧ b4 % 8 < 2) →
      decode_bds65 inner s
        = match inner (bytes.drop 4) with
          | some a => .ok a
          | none => .structuralErr) := by
  rw [decode_bds65, hdec]
  simp only [hb4]
  constructor
  · intro h
    rw [if_neg h]
  · intro h
    rw [if_pos h]

/-- C4 witness: a frame with typecode 31 and sub-identifier 0 proceeds to
decode; one with typecode 22 is rejected with the range error naming the
observed values and the allowed band. -/
theorem decode_bds65_gate_witness :
    decode_bds65 classifyAll "00000000f8" = .ok [248]
    ∧ decode_bds65 classifyAll "00000000b0"
        = .rangeErr "Invalid typecode 22 (31) or category 0 (0 or 1) for BDS 6,5" := by
  constructor
  · exact (decode_bds65_gate classifyAll "00000000f8" [0, 0, 0, 0, 248] 248
      rfl rfl).2 (by decide)
  · exact (decode_bds65_gate classifyAll "00000000b0" [0, 0, 0, 0, 176] 176
      rfl rfl).1 (by decide)

/-- C5: for the lenient single-frame decode `decode_1090`, a malformed hex
string fails with the format error surfaced to the caller, while bytes that
the classifier cannot classify yield the explicit no-value result `ok none`;
the two outcomes are distinct values. -/
theorem decode_1090_lenient_outcomes {α : Type}
    (classify : List Nat → Option α) (msg : String) :
    (∀ e, hexDecode msg = .error e → decode_1090 classify msg = .error e)
    ∧ (∀ bytes, hexDecode msg = .ok bytes →
        decode_1090 classify msg = .ok (classify bytes))
    ∧ (∀ (e : HexError) (o : Option α),
        (Except.error e : Except HexError (Option α)) ≠ .ok o) := by
  refine ⟨?_, ?_, fun e o h => by cases h⟩
  · intro e he
    rw [decode_1090, he]
  · intro bytes hb
    rw [decode_1090, hb]


/-- C5 witness: a malformed hex string gives the surfaced format error; a
well-formed hex string that does not classify gives the explicit `ok none`;
a well-formed hex string that classifies gives its message. -/
theorem decode_1090_lenient_outcomes_witness :
    decode_1090 classifyAll "zz" = .error (.invalidHexCharacter 'z' 0)
    ∧ decode_1090 classifyNone "aa" = .ok none
    ∧ decode_1090 classifyAll "aa" = .ok (some [170]) :=
  ⟨(decode_1090_lenient_outcomes classifyAll "zz").1 _ rfl,
   (decode_1090_lenient_outcomes classifyNone "aa").2.1 [170] rfl,
   (decode_1090_lenient_outcomes classifyAll "aa").2.1 [170] rfl⟩

/-- `Char.ofNat` evaluates to its argument on valid code points below the
surrogate range. -/
theorem toNat_ofNat_of_lt (n : Nat) (h : n < 55296) :
    (Char.ofNat n).toNat = n := by
  rw [Char.ofNat, dif_pos (Or.inl h)]
  rfl

/-- `lowerChar` adds 32 to the code of an upper-case ASCII letter and leaves
every other character unchanged. -/
theorem toNat_lowerChar (c : Char) :
    (lowerChar c).toNat
      = if 65 ≤ c.toNat ∧ c.toNat ≤ 90 then c.toNat + 32 else c.toNat := by
  rw [lowerChar]
  by_cases h : 65 ≤ c.toNat ∧ c.toNat ≤ 90
  · rw [if_pos h, if_pos h]
    exact toNat_ofNat_of_lt _ (by omega)
  · rw [if_neg h, if_neg h]

/-- Hex digit values are invariant under ASCII lowercasing. -/
theorem hexDigitVal_lowerChar (c : Char) :
    hexDigitVal (lowerChar c) = hexDigitVal c := by
  rw [hexDigitVal, hexDigitVal, toNat_lowerChar]
  split_ifs <;>
    first
      | rfl
      | (exact congrArg some (by omega))
      | (exfalso; omega)

/-- Only `+` lowercases to `+`. -/
theorem lowerChar_eq_plus {c : Char} (h : lowerChar c = '+') : c = '+' := by
  by_cases hc : 65 ≤ c.toNat ∧ c.toNat ≤ 90
  · exfalso
    have h2 := congrArg Char.toNat h
    rw [toNat_lowerChar, if_pos hc] at h2
    have h43 : ('+' : Char).toNat = 43 := rfl
    omega
  · rw [lowerChar, if_neg hc] at h
    exact h

/-- Stripping the sign commutes with lowercasing. -/
theorem stripPlus_map_lowerChar (cs : List Char) :
    stripPlus (cs.map lowerChar) = (stripPlus cs).map lowerChar := by
  cases cs with
  | nil => rfl
  | cons c rest =>
    rw [List.map_cons, stripPlus, stripPlus]
    by_cases h : c = '+'
    · subst h
      rw [if_pos (show lowerChar '+' = '+' by decide), if_pos rfl]
    · rw [if_neg (fun hh => h (lowerChar_eq_plus hh)), if_neg h, List.map_cons]

/-- The address parse is case-insensitive: lowercasing the string first does
not change the result of `from_str_radix16`. -/
theorem from_str_radix16_lowerStr (s : String) :
    from_str_radix16 (lowerStr s) = from_str_radix16 s := by
  rw [from_str_radix16, from_str_radix16,
    show (lowerStr s).data = s.data.map lowerChar from rfl,
    stripPlus_map_lowerChar]
  have hie : ((stripPlus s.data).map lowerChar).isEmpty
      = (stripPlus s.data).isEmpty := by
    cases stripPlus s.data <;> rfl
  have hfold : ((stripPlus s.data).map lowerChar).foldl
      (fun acc c => acc.bind fun a => (hexDigitVal c).map fun d => 16 * a + d)
      (some 0)
      = (stripPlus s.data).foldl
        (fun acc c => acc.bind fun a => (hexDigitVal c).map fun d => 16 * a + d)
        (some 0) := by
    rw [List.foldl_map]
    have hfun : (fun (acc : Option Nat) (c : Char) =>
        acc.bind fun a => (hexDigitVal (lowerChar c)).map fun d => 16 * a + d)
        = fun acc c =>
          acc.bind fun a => (hexDigitVal c).map fun d => 16 * a + d := by
      funext acc c
      rw [hexDigitVal_lowerChar]
    rw [hfun]
  rw [hie, hfold]

/-- Finding a key among pairs surviving the filter that removed that key
always fails. -/
theorem find?_filter_key (m : Reg) (k : String) :
    (m.filter (fun kv => kv.1 != k)).find? (fun kv => kv.1 == k) = none := by
  induction m with
  | nil => rfl
  | cons kv rest ih =>
    rw [List.filter_cons]
    by_cases h : kv.1 = k
    · have hb : (kv.1 != k) = false := by simp [h]
      rw [if_neg (by simp [hb])]
      exact ih
    · have hb : (kv.1 != k) = true := by simp [h]
      rw [if_pos hb, List.find?_cons]
      have hb2 : (kv.1 == k) = false := by simp [h]
      rw [hb2]
      exact ih

/-- Looking up the key just inserted yields the inserted value. -/
theorem getKV_insertKV_self (m : Reg) (k v : String) :
    getKV (insertKV m k v) k = some v := by
  simp only [getKV, insertKV, List.find?_append, find?_filter_key]
  rw [List.find?_cons]
  have hb : ((k, v).1 == k) = true := by simp
  rw [hb]
  rfl

/-- Looking up any other key is unchanged by an insert. -/
theorem getKV_insertKV_ne (m : Reg) (k v k' : String) (h : k' ≠ k) :
    getKV (insertKV m k v) k' = getKV m k' := by
  simp only [getKV, insertKV, List.find?_append]
  have h1 : List.find? (fun kv => kv.1 == k') [(k, v)] = none := by
    rw [List.find?_cons]
    have hb : ((k, v).1 == k') = false := by
      simp only [beq_eq_false_iff_ne]
      exact fun hh => h hh.symm
    rw [hb]
    rfl
  have h2 : (m.filter (fun kv => kv.1 != k)).find? (fun kv => kv.1 == k')
      = m.find? (fun kv => kv.1 == k') := by
    induction m with
    | nil => rfl
    | cons kv rest ih =>
      rw [List.filter_cons, List.find?_cons]
      by_cases hk : kv.1 = k
      · have hb : (kv.1 != k) = false := by simp [hk]
        have hb2 : (kv.1 == k') = false := by
          simp only [beq_eq_false_iff_ne]
          rw [hk]
          exact fun hh => h hh.symm
        rw [if_neg (by simp [hb]), hb2]
        exact ih
      · have hb : (kv.1 != k) = true := by simp [hk]
        rw [if_pos hb, List.find?_cons]
        cases hkk : (kv.1 == k') with
        | true => rfl
        | false => exact ih
  rw [h1, h2]
  cases m.find? (fun kv => kv.1 == k') <;> rfl

/-- Inserting twice at the same key keeps only the second value. -/
theorem insertKV_insertKV_same (m : Reg) (k v w : String) :
    insertKV (insertKV m k w) k v = insertKV m k v := by
  rw [insertKV, insertKV, insertKV, List.filter_append]
  have h1 : List.filter (fun kv => kv.1 != k) [(k, w)] = [] := by
    simp [List.filter]
  have h2 : (m.filter (fun kv => kv.1 != k)).filter (fun kv => kv.1 != k)
      = m.filter (fun kv => kv.1 != k) := by
    rw [List.filter_filter]
    simp
  rw [h1, h2, List.append_nil]

/-- `find?` over a split list whose prefix all fails the predicate and whose
head of the suffix satisfies it returns that head: the first-match-in-order
contract of the table scan. -/
theorem find?_first {β : Type} (p : β → Bool) (pre post : List β) (x : β)
    (h1 : ∀ e ∈ pre, p e = false) (h2 : p x = true) :
    (pre ++ x :: post).find? p = some x := by
  induction pre with
  | nil =>
    rw [List.nil_append, List.find?_cons, h2]
  | cons e rest ih =>
    have he : p e = false := h1 e (by simp)
    rw [List.cons_append, List.find?_cons, he]
    exact ih (fun e' h' => h1 e' (by simp [h']))

/-- The empty mapping has no bindings. -/
theorem getKV_nil (k : String) : getKV ([] : Reg) k = none := rfl

/-- Reduction of `Option.or` on a present first component. -/
theorem option_some_or {α : Type} (a : α) (o : Option α) :
    (some a).or o = some a := rfl

/-- Reduction of `Option.or` on an absent first component. -/
theorem option_none_or {α : Type} (o : Option α) :
    (none : Option α).or o = o := rfl

/-- Reduction of `Option.or` on an absent second component. -/
theorem option_or_none {α : Type} (o : Option α) : o.or none = o := by
  cases o <;> rfl

/-- The base mapping binds `icao24` to the lowercased input address. -/
theorem getKV_baseReg_icao24 (tailFn : Nat → Option String) (hexid : Nat)
    (s : String) (r : Option String) :
    getKV (baseReg tailFn hexid s r) "icao24" = some (lowerStr s) := by
  rw [baseReg.eq_def]
  cases tailFn hexid <;> cases r <;>
    simp only [getKV_insertKV_self,
      getKV_insertKV_ne _ "registration" _ "icao24" (by decide)]

/-- The base mapping binds `registration` to the caller-supplied string when
present, else to the tail-table registration when that exists. -/
theorem getKV_baseReg_registration (tailFn : Nat → Option String)
    (hexid : Nat) (s : String) (r : Option String) :
    getKV (baseReg tailFn hexid s r) "registration" = r.or (tailFn hexid) := by
  rw [baseReg.eq_def]
  cases tailFn hexid <;> cases r <;>
    simp only [option_some_or, option_none_or, getKV_insertKV_self,
      getKV_insertKV_ne _ "icao24" _ "registration" (by decide), getKV_nil]

/-- The base mapping binds no key other than `icao24` and `registration`. -/
theorem getKV_baseReg_other (tailFn : Nat → Option String) (hexid : Nat)
    (s : String) (r : Option String) (k : String)
    (h1 : k ≠ "icao24") (h2 : k ≠ "registration") :
    getKV (baseReg tailFn hexid s r) k = none := by
  rw [baseReg.eq_def]
  cases tailFn hexid <;> cases r <;>
    simp only [getKV_insertKV_ne _ "registration" _ k h2,
      getKV_insertKV_ne _ "icao24" _ k h1, getKV_nil]

/-- After a matching category rule, `pattern` is always the rule's pattern. -/
theorem getKV_applyCategoryRule_pattern (cat : CategoryRule) (reg : Reg) :
    getKV (applyCategoryRule cat reg) "pattern" = some cat.pattern := by
  rw [applyCategoryRule]
  cases cat.category <;> cases cat.country <;> cases cat.flag <;>
    simp only [getKV_insertKV_self,
      getKV_insertKV_ne _ "category" _ "pattern" (by decide),
      getKV_insertKV_ne _ "country" _ "pattern" (by decide),
      getKV_insertKV_ne _ "flag" _ "pattern" (by decide)]

/-- After a matching category rule, `category` is the rule's category when
present, else whatever the mapping already had. -/
theorem getKV_applyCategoryRule_category (cat : CategoryRule) (reg : Reg) :
    getKV (applyCategoryRule cat reg) "category"
      = cat.category.or (getKV reg "category") := by
  rw [applyCategoryRule]
  cases cat.category <;> cases cat.country <;> cases cat.flag <;>
    simp only [option_some_or, option_none_or, getKV_insertKV_self,
      getKV_insertKV_ne _ "pattern" _ "category" (by decide),
      getKV_insertKV_ne _ "country" _ "category" (by decide),
      getKV_insertKV_ne _ "flag" _ "category" (by decide)]

/-- After a matching category rule, `country` is the rule's country when
present, else whatever the mapping already had. -/
theorem getKV_applyCategoryRule_country (cat : CategoryRule) (reg : Reg) :
    getKV (applyCategoryRule cat reg) "country"
      = cat.country.or (getKV reg "country") := by
  rw [applyCategoryRule]
  cases cat.category <;> cases cat.country <;> cases cat.flag <;>
    simp only [option_some_or, option_none_or, getKV_insertKV_self,
      getKV_insertKV_ne _ "pattern" _ "country" (by decide),
      getKV_insertKV_ne _ "category" _ "country" (by decide),
      getKV_insertKV_ne _ "flag" _ "country" (by decide)]

/-- After a matching category rule, `flag` is the rule's flag when present,
else whatever the mapping already had. -/
theorem getKV_applyCategoryRule_flag (cat : CategoryRule) (reg : Reg) :
    getKV (applyCategoryRule cat reg) "flag"
      = cat.flag.or (getKV reg "flag") := by
  rw [applyCategoryRule]
  cases cat.category <;> cases cat.country <;> cases cat.flag <;>
    simp only [option_some_or, option_none_or, getKV_insertKV_self,
      getKV_insertKV_ne _ "pattern" _ "flag" (by decide),
      getKV_insertKV_ne _ "category" _ "flag" (by decide),
      getKV_insertKV_ne _ "country" _ "flag" (by decide)]

/-- A category rule touches only `pattern`, `category`, `country` and
`flag`. -/
theorem getKV_applyCategoryRule_other (cat : CategoryRule) (reg : Reg)
    (k : String) (h1 : k ≠ "pattern") (h2 : k ≠ "category")
    (h3 : k ≠ "country") (h4 : k ≠ "flag") :
    getKV (applyCategoryRule cat reg) k = getKV reg k := by
  rw [applyCategoryRule]
  cases cat.category <;> cases cat.country <;> cases cat.flag <;>
    simp only [getKV_insertKV_ne _ "pattern" _ k h1,
      getKV_insertKV_ne _ "category" _ k h2,
      getKV_insertKV_ne _ "country" _ k h3,
      getKV_insertKV_ne _ "flag" _ k h4]

/-- The seeding inserts bind `country` to the entry's country. -/
theorem getKV_seedEntry_country (pat : AddressRangeEntry) (reg : Reg) :
    getKV (seedEntry pat reg) "country" = some pat.country := by
  rw [seedEntry]
  cases pat.pattern <;> cases pat.comment <;>
    simp only [getKV_insertKV_self,
      getKV_insertKV_ne _ "flag" _ "country" (by decide),
      getKV_insertKV_ne _ "pattern" _ "country" (by decide),
      getKV_insertKV_ne _ "comment" _ "country" (by decide)]

/-- The seeding inserts bind `flag` to the entry's flag. -/
theorem getKV_seedEntry_flag (pat : AddressRangeEntry) (reg : Reg) :
    getKV (seedEntry pat reg) "flag" = some pat.flag := by
  rw [seedEntry]
  cases pat.pattern <;> cases pat.comment <;>
    simp only [getKV_insertKV_self,
      getKV_insertKV_ne _ "pattern" _ "flag" (by decide),
      getKV_insertKV_ne _ "comment" _ "flag" (by decide)]

/-- The seeding inserts bind `pattern` to the entry's pattern when present,
else leave it as in the incoming mapping. -/
theorem getKV_seedEntry_pattern (pat : AddressRangeEntry) (reg : Reg) :
    getKV (seedEntry pat reg) "pattern"
      = pat.pattern.or (getKV reg "pattern") := by
  rw [seedEntry]
  cases pat.pattern <;> cases pat.comment <;>
    simp only [option_some_or, option_none_or, getKV_insertKV_self,
      getKV_insertKV_ne _ "comment" _ "pattern" (by decide),
      getKV_insertKV_ne _ "country" _ "pattern" (by decide),
      getKV_insertKV_ne _ "flag" _ "pattern" (by decide)]

/-- The seeding inserts bind `comment` to the entry's comment when present,
else leave it as in the incoming mapping. -/
theorem getKV_seedEntry_comment (pat : AddressRangeEntry) (reg : Reg) :
    getKV (seedEntry pat reg) "comment"
      = pat.comment.or (getKV reg "comment") := by
  rw [seedEntry]
  cases pat.pattern <;> cases pat.comment <;>
    simp only [option_some_or, option_none_or, getKV_insertKV_self,
      getKV_insertKV_ne _ "pattern" _ "comment" (by decide),
      getKV_insertKV_ne _ "country" _ "comment" (by decide),
      getKV_insertKV_ne _ "flag" _ "comment" (by decide)]

/-- The seeding inserts touch only `country`, `flag`, `pattern` and
`comment`. -/
theorem getKV_seedEntry_other (pat : AddressRangeEntry) (reg : Reg)
    (k : String) (h1 : k ≠ "country") (h2 : k ≠ "flag") (h3 : k ≠ "pattern")
    (h4 : k ≠ "comment") :
    getKV (seedEntry pat reg) k = getKV reg k := by
  rw [seedEntry]
  cases pat.pattern <;> cases pat.comment <;>
    simp only [getKV_insertKV_ne _ "country" _ k h1,
      getKV_insertKV_ne _ "flag" _ k h2,
      getKV_insertKV_ne _ "pattern" _ k h3,
      getKV_insertKV_ne _ "comment" _ k h4]

/-- `applyRangeEntry` reduces to the matched rule application when a
registration is present and a rule matches. -/
theorem applyRangeEntry_eq_of_rule (regexMatch : String → String → Bool)
    (pat : AddressRangeEntry) (reg : Reg) (t : String)
    (cats : List CategoryRule) (cat : CategoryRule)
    (hreg : getKV (seedEntry pat reg) "registration" = some t)
    (hcats : pat.categories = some cats)
    (hfind : cats.find? (fun r => regexMatch r.pattern t) = some cat) :
    applyRangeEntry regexMatch pat reg
      = applyCategoryRule cat (seedEntry pat reg) := by
  simp only [applyRangeEntry, hreg, hcats, hfind]

/-- `applyRangeEntry` reduces to the plain seeding when no registration is
in the mapping. -/
theorem applyRangeEntry_eq_of_noreg (regexMatch : String → String → Bool)
    (pat : AddressRangeEntry) (reg : Reg)
    (hreg : getKV (seedEntry pat reg) "registration" = none) :
    applyRangeEntry regexMatch pat reg = seedEntry pat reg := by
  simp only [applyRangeEntry, hreg]

/-- The matched-entry block touches only `country`, `flag`, `pattern`,
`comment` and `category`. -/
theorem getKV_applyRangeEntry_other (regexMatch : String → String → Bool)
    (pat : AddressRangeEntry) (reg : Reg) (k : String)
    (h1 : k ≠ "country") (h2 : k ≠ "flag") (h3 : k ≠ "pattern")
    (h4 : k ≠ "comment") (h5 : k ≠ "category") :
    getKV (applyRangeEntry regexMatch pat reg) k = getKV reg k := by
  cases hreg : getKV (seedEntry pat reg) "registration" with
  | none =>
    simp only [applyRangeEntry, hreg]
    exact getKV_seedEntry_other pat reg k h1 h2 h3 h4
  | some t =>
    cases hcats : pat.categories with
    | none =>
      simp only [applyRangeEntry, hreg, hcats]
      exact getKV_seedEntry_other pat reg k h1 h2 h3 h4
    | some cats =>
      cases hfind : cats.find? (fun rr => regexMatch rr.pattern t) with
      | none =>
        simp only [applyRangeEntry, hreg, hcats, hfind]
        exact getKV_seedEntry_other pat reg k h1 h2 h3 h4
      | some cat =>
        simp only [applyRangeEntry, hreg, hcats, hfind]
        rw [getKV_applyCategoryRule_other cat _ k h3 h5 h1 h2]
        exact getKV_seedEntry_other pat reg k h1 h2 h3 h4

/-- C6: `aircraft_information` is case-insensitive and normalizes the
address on output: two spellings of the same address (equal after
lowercasing) give identical mappings, and the `icao24` field of any result
is the lowercased input. -/
theorem aircraft_information_case_insensitive
    (tailFn : Nat → Option String) (regexMatch : String → String → Bool)
    (regs : List AddressRangeEntry) (r : Option String) (s₁ s₂ : String)
    (h : lowerStr s₁ = lowerStr s₂) :
    aircraft_information tailFn regexMatch regs s₁ r
        = aircraft_information tailFn regexMatch regs s₂ r
    ∧ (∀ m, aircraft_information tailFn regexMatch regs s₁ r = some m →
        getKV m "icao24" = some (lowerStr s₁)) := by
  have hf : from_str_radix16 s₁ = from_str_radix16 s₂ := by
    rw [← from_str_radix16_lowerStr s₁, h, from_str_radix16_lowerStr]
  constructor
  · cases hx : from_str_radix16 s₂ with
    | none => simp only [aircraft_information, hf, hx]
    | some hexid =>
      have hb : baseReg tailFn hexid s₁ r = baseReg tailFn hexid s₂ r := by
        rw [baseReg.eq_def, baseReg.eq_def, h]
      simp only [aircraft_information, hf, hx, hb]
  · intro m hm
    cases hx : from_str_radix16 s₁ with
    | none =>
      rw [aircraft_information.eq_def, hx] at hm
      cases hm
    | some hexid =>
      cases hfind : regs.find? (fun elt => inInterval elt hexid) with
      | some pat =>
        simp only [aircraft_information, hx, hfind] at hm
        have hm2 := Option.some.inj hm
        subst hm2
        rw [getKV_applyRangeEntry_other _ _ _ _ (by decide) (by decide)
          (by decide) (by decide) (by decide)]
        exact getKV_baseReg_icao24 ..
      | none =>
        simp only [aircraft_information, hx, hfind] at hm
        have hm2 := Option.some.inj hm
        subst hm2
        rw [getKV_insertKV_ne _ _ _ _ (by decide),
          getKV_insertKV_ne _ _ _ _ (by decide)]
        exact getKV_baseReg_icao24 ..

/-- C6 witness: the upper- and lower-case spellings of `4840d6` give
identical mappings against a concrete table. -/
theorem aircraft_information_case_insensitive_witness :
    aircraft_information tailW rmW [entryW] "4840D6" none
      = aircraft_information tailW rmW [entryW] "4840d6" none :=
  (aircraft_information_case_insensitive tailW rmW [entryW] none
    "4840D6" "4840d6" (by decide)).1

/-- C7: an address contained in no configured range entry resolves to a
mapping with the lowercased `icao24`, country `Unknown` and the neutral
flag glyph, and with no `category` and no `pattern` key present. -/
theorem aircraft_information_unknown
    (tailFn : Nat → Option String) (regexMatch : String → String → Bool)
    (regs : List AddressRangeEntry) (s : String) (r : Option String)
    (hexid : Nat)
    (hparse : from_str_radix16 s = some hexid)
    (hout : ∀ e ∈ regs, inInterval e hexid = false) :
    ∃ m, aircraft_information tailFn regexMatch regs s r = some m
      ∧ getKV m "icao24" = some (lowerStr s)
      ∧ getKV m "country" = some "Unknown"
      ∧ getKV m "flag" = some "🏳"
      ∧ getKV m "category" = none
      ∧ getKV m "pattern" = none := by
  have hfind : regs.find? (fun elt => inInterval elt hexid) = none := by
    rw [List.find?_eq_none]
    intro x hx
    simp [hout x hx]
  have hres : aircraft_information tailFn regexMatch regs s r
      = some (insertKV (insertKV (baseReg tailFn hexid s r)
          "country" "Unknown") "flag" "🏳") := by
    simp only [aircraft_information, hparse, hfind]
  refine ⟨_, hres, ?_, ?_, ?_, ?_, ?_⟩
  · rw [getKV_insertKV_ne _ _ _ _ (by decide),
      getKV_insertKV_ne _ _ _ _ (by decide)]
    exact getKV_baseReg_icao24 ..
  · rw [getKV_insertKV_ne _ _ _ _ (by decide), getKV_insertKV_self]
  · rw [getKV_insertKV_self]
  · rw [getKV_insertKV_ne _ _ _ _ (by decide),
      getKV_insertKV_ne _ _ _ _ (by decide)]
    exact getKV_baseReg_other _ _ _ _ _ (by decide) (by decide)
  · rw [getKV_insertKV_ne _ _ _ _ (by decide),
      getKV_insertKV_ne _ _ _ _ (by decide)]
    exact getKV_baseReg_other _ _ _ _ _ (by decide) (by decide)

/-- C7 witness: address `123abc` against an empty table: country `Unknown`,
neutral flag, no `category` or `pattern` key. -/
theorem aircraft_information_unknown_witness :
    getKV ((aircraft_information tailW rmW [] "123abc" none).getD [])
        "country" = some "Unknown"
    ∧ getKV ((aircraft_information tailW rmW [] "123abc" none).getD [])
        "flag" = some "🏳"
    ∧ getKV ((aircraft_information tailW rmW [] "123abc" none).getD [])
        "category" = none
    ∧ getKV ((aircraft_information tailW rmW [] "123abc" none).getD [])
        "pattern" = none := by
  obtain ⟨m, hm, _, h2, h3, h4, h5⟩ :=
    aircraft_information_unknown tailW rmW [] "123abc" none 1194684 rfl
      (by simp)
  rw [hm, Option.getD_some]
  exact ⟨h2, h3, h4, h5⟩

/-- C9: when the caller supplies a registration, it overrides the one
derived from the tail-number table: the result does not depend on the tail
table at all, and the `registration` field of any result is the supplied
string. -/
theorem aircraft_information_supplied_registration
    (t₁ t₂ : Nat → Option String) (regexMatch : String → String → Bool)
    (regs : List AddressRangeEntry) (s : String) (rsup : String) :
    aircraft_information t₁ regexMatch regs s (some rsup)
        = aircraft_information t₂ regexMatch regs s (some rsup)
    ∧ (∀ m, aircraft_information t₁ regexMatch regs s (some rsup) = some m →
        getKV m "registration" = some rsup) := by
  have hbase : ∀ (tf : Nat → Option String) (hexid : Nat),
      baseReg tf hexid s (some rsup)
        = insertKV (insertKV [] "icao24" (lowerStr s))
            "registration" rsup := by
    intro tf hexid
    rw [baseReg.eq_def]
    cases tf hexid with
    | none => rfl
    | some t => exact insertKV_insertKV_same ..
  constructor
  · cases hx : from_str_radix16 s with
    | none => simp only [aircraft_information, hx]
    | some hexid =>
      simp only [aircraft_information, hx, hbase t₁ hexid, hbase t₂ hexid]
  · intro m hm
    cases hx : from_str_radix16 s with
    | none =>
      rw [aircraft_information.eq_def, hx] at hm
      cases hm
    | some hexid =>
      cases hfind : regs.find? (fun elt => inInterval elt hexid) with
      | some pat =>
        simp only [aircraft_information, hx, hfind] at hm
        have hm2 := Option.some.inj hm
        subst hm2
        rw [getKV_applyRangeEntry_other _ _ _ _ (by decide) (by decide)
          (by decide) (by decide) (by decide), getKV_baseReg_registration]
        rfl
      | none =>
        simp only [aircraft_information, hx, hfind] at hm
        have hm2 := Option.some.inj hm
        subst hm2
        rw [getKV_insertKV_ne _ _ _ _ (by decide),
          getKV_insertKV_ne _ _ _ _ (by decide), getKV_baseReg_registration]
        rfl

/-- C9 witness: with a supplied registration the result is independent of
the tail table, and the registration field is the supplied string. -/
theorem aircraft_information_supplied_registration_witness :
    aircraft_information tailW rmW [entryW] "4840D6" (some "N123AB")
        = aircraft_information (fun _ => none) rmW [entryW] "4840D6"
            (some "N123AB")
    ∧ getKV ((aircraft_information tailW rmW [entryW] "4840D6"
          (some "N123AB")).getD []) "registration" = some "N123AB" := by
  have h := aircraft_information_supplied_registration tailW (fun _ => none)
    rmW [entryW] "4840D6" "N123AB"
  exact ⟨h.1, h.2 _ (by decide)⟩

/-- C8: `aircraft_information` selects the first range entry, in declared
table order, whose inclusive interval contains the address, and applies the
matched-entry block to the base mapping; when no registration is available
the result carries exactly the entry's seeded `country`, `flag`, `pattern`
and `comment`, with no `category`; when a registration is available and a
first matching category rule exists (in rule-list order), that rule
overrides `pattern` always and `category`, `country` and `flag` exactly
where the rule carries a value. -/
theorem aircraft_information_first_entry_first_rule
    (tailFn : Nat → Option String) (regexMatch : String → String → Bool)
    (regs pre post : List AddressRangeEntry) (pat : AddressRangeEntry)
    (s : String) (r : Option String) (hexid : Nat)
    (hparse : from_str_radix16 s = some hexid)
    (hsplit : regs = pre ++ pat :: post)
    (hpre : ∀ e ∈ pre, inInterval e hexid = false)
    (hpat : inInterval pat hexid = true) :
    aircraft_information tailFn regexMatch regs s r
        = some (applyRangeEntry regexMatch pat (baseReg tailFn hexid s r))
    ∧ (r.or (tailFn hexid) = none →
        ∀ m, aircraft_information tailFn regexMatch regs s r = some m →
          getKV m "country" = some pat.country
          ∧ getKV m "flag" = some pat.flag
          ∧ getKV m "pattern" = pat.pattern
          ∧ getKV m "comment" = pat.comment
          ∧ getKV m "category" = none)
    ∧ (∀ t, r.or (tailFn hexid) = some t →
        ∀ cats cpre cat cpost, pat.categories = some cats →
          cats = cpre ++ cat :: cpost →
          (∀ c ∈ cpre, regexMatch c.pattern t = false) →
          regexMatch cat.pattern t = true →
          ∀ m, aircraft_information tailFn regexMatch regs s r = some m →
            getKV m "country" = cat.country.or (some pat.country)
            ∧ getKV m "flag" = cat.flag.or (some pat.flag)
            ∧ getKV m "pattern" = some cat.pattern
            ∧ getKV m "category" = cat.category
            ∧ getKV m "comment" = pat.comment) := by
  have hfind : regs.find? (fun elt => inInterval elt hexid) = some pat := by
    rw [hsplit]
    exact find?_first _ pre post pat hpre hpat
  have hres : aircraft_information tailFn regexMatch regs s r
      = some (applyRangeEntry regexMatch pat (baseReg tailFn hexid s r)) := by
    simp only [aircraft_information, hparse, hfind]
  have hsreg : getKV (seedEntry pat (baseReg tailFn hexid s r)) "registration"
      = r.or (tailFn hexid) := by
    rw [getKV_seedEntry_other _ _ _ (by decide) (by decide) (by decide)
      (by decide)]
    exact getKV_baseReg_registration ..
  have hbasenone : ∀ k, k ≠ "icao24" → k ≠ "registration" →
      getKV (baseReg tailFn hexid s r) k = none := fun k h1 h2 =>
    getKV_baseReg_other tailFn hexid s r k h1 h2
  refine ⟨hres, ?_, ?_⟩
  · intro hnone m hm
    rw [hres] at hm
    have hm2 := Option.some.inj hm
    subst hm2
    rw [applyRangeEntry_eq_of_noreg _ _ _ (by rw [hsreg, hnone])]
    refine ⟨getKV_seedEntry_country .., getKV_seedEntry_flag .., ?_, ?_, ?_⟩
    · rw [getKV_seedEntry_pattern, hbasenone _ (by decide) (by decide),
        option_or_none]
    · rw [getKV_seedEntry_comment, hbasenone _ (by decide) (by decide),
        option_or_none]
    · rw [getKV_seedEntry_other _ _ _ (by decide) (by decide) (by decide)
        (by decide)]
      exact hbasenone _ (by decide) (by decide)
  · intro t hts cats cpre cat cpost hcats hcsplit hcpre hcmatch m hm
    rw [hres] at hm
    have hm2 := Option.some.inj hm
    subst hm2
    have hfindc : cats.find? (fun rr => regexMatch rr.pattern t)
        = some cat := by
      rw [hcsplit]
      exact find?_first _ cpre cpost cat hcpre hcmatch
    rw [applyRangeEntry_eq_of_rule regexMatch pat _ t cats cat
      (by rw [hsreg, hts]) hcats hfindc]
    refine ⟨?_, ?_, getKV_applyCategoryRule_pattern .., ?_, ?_⟩
    · rw [getKV_applyCategoryRule_country, getKV_seedEntry_country]
    · rw [getKV_applyCategoryRule_flag, getKV_seedEntry_flag]
    · rw [getKV_applyCategoryRule_category,
        getKV_seedEntry_other _ _ _ (by decide) (by decide) (by decide)
          (by decide),
        hbasenone _ (by decide) (by decide), option_or_none]
    · rw [getKV_applyCategoryRule_other _ _ _ (by decide) (by decide)
        (by decide) (by decide), getKV_seedEntry_comment,
        hbasenone _ (by decide) (by decide), option_or_none]

/-- C8 witness: address `4840D6` falls in the single configured entry; the
tail table supplies registration `PH-OBS`; the first rule (`GLIDER`) does
not match and the second (`PH`) does, so `pattern` is overridden to `PH`
while `country` and `flag` keep the entry's seeds and no `category` key
appears. -/
theorem aircraft_information_first_entry_first_rule_witness :
    aircraft_information tailW rmW [entryW] "4840D6" none
        = some (applyRangeEntry rmW entryW (baseReg tailW 4735190 "4840D6"
            none))
    ∧ getKV ((aircraft_information tailW rmW [entryW] "4840D6" none).getD [])
        "country" = some "Netherlands"
    ∧ getKV ((aircraft_information tailW rmW [entryW] "4840D6" none).getD [])
        "flag" = some "NL"
    ∧ getKV ((aircraft_information tailW rmW [entryW] "4840D6" none).getD [])
        "pattern" = some "PH"
    ∧ getKV ((aircraft_information tailW rmW [entryW] "4840D6" none).getD [])
        "category" = none := by
  have h := aircraft_information_first_entry_first_rule tailW rmW [entryW]
    [] [] entryW "4840D6" none 4735190 rfl rfl (by simp) (by decide)
  have h2 := h.2.2 "PH-OBS" rfl [catGlider, catPH] [catGlider] catPH []
    rfl rfl (by decide) (by decide) _ h.1
  rw [h.1, Option.getD_some]
  exact ⟨h.1, h2.1, h2.2.1, h2.2.2.1, h2.2.2.2.1⟩

end RS1090
